import Mathlib

/-!
Verification of the Video-Heatmap cursor-tracking core.

A shallow embedding of the algorithmic core of the Video-Heatmap
repository (`src/processor.py` and the detection thread of `src/ui.py`),
together with theorems settling the specification's claims about it.

Conventions of the embedding:
* Python floats are modelled as exact rationals (`ℚ`); Python ints as `ℤ`.
* Python `//` (floor division) is `Int.fdiv`; Python `%` is `Int.emod`
  (both agree with Python's semantics on negative operands).
* Python `int(x)` applied to a non-negative float truncates toward zero,
  modelled by `truncQ`.
* A density field (`numpy` 2-D float array) is modelled as a total
  function `HMap : ℕ → ℕ → ℚ` indexed by (row, column); claims about it
  are stated pointwise.
* External OpenCV primitives are modelled by their documented behaviour:
  `cv2.circle` fills the disk of the given radius with the given value
  and asserts that the radius is non-negative (`CV_Assert(radius >= 0)`
  in OpenCV's `drawing.cpp`); fallible calls return `Except String`.
* `cv2.GaussianBlur` and the matplotlib colormap lookup are kept
  abstract (arbitrary function parameters): no claim depends on their
  internals, only on whether/where they are applied.
-/

/-- A density field: rows × columns of float values (`np.float32` array,
modelled exactly over `ℚ`). -/
def HMap : Type := ℕ → ℕ → ℚ

/-- The all-zero density field (`np.zeros((height, width))`). -/
def zeroHMap : HMap := fun _ _ => 0

/-- Python `int(x)` on a float: truncation toward zero.  For a rational
`q` this is the T-division of numerator by denominator. -/
def truncQ (q : ℚ) : ℤ := Int.tdiv q.num q.den

/-- Model of `VideoHeatmapProcessor.set_blur_size` (processor.py:192-194):
`self.blur_size = value if value % 2 == 1 else value + 1`. -/
def set_blur_size (value : ℤ) : ℤ :=
  if value % 2 = 1 then value else value + 1

/-- Model of `cv2.circle(img, center, radius, (1.0), -1)` as used by
`generate_heatmap`: fills the disk of radius `radius` around `center`
(given as `(x, y)` = (column, row)) with the value `1.0`.  OpenCV
asserts `radius >= 0` and raises an error otherwise. -/
def cv2_circle (img : HMap) (center : ℤ × ℤ) (radius : ℤ) : Except String HMap :=
  if radius < 0 then Except.error "cv2.circle: radius must be non-negative"
  else Except.ok fun i j =>
    if ((j : ℤ) - center.1) ^ 2 + ((i : ℤ) - center.2) ^ 2 ≤ radius ^ 2 then 1
    else img i j

/-- The pre-filter of `generate_heatmap` (processor.py:124-131): keep the
samples whose timestamp lies in `[start_time, end_time]` (inclusive at
both ends) and whose coordinates are inside the frame, and forget the
timestamps. -/
def positions_in_range (cursor_positions : List (ℚ × ℤ × ℤ))
    (start_time end_time : ℚ) (width height : ℕ) : List (ℤ × ℤ) :=
  cursor_positions.filterMap fun s =>
    if start_time ≤ s.1 ∧ s.1 ≤ end_time then
      if 0 ≤ s.2.1 ∧ s.2.1 < (width : ℤ) ∧ 0 ≤ s.2.2 ∧ s.2.2 < (height : ℤ) then
        some (s.2.1, s.2.2)
      else none
    else none

/-- The splat loop of `generate_heatmap` (processor.py:134-136): one
`cv2.circle` call per surviving position. -/
def splat_positions : List (ℤ × ℤ) → ℤ → HMap → Except String HMap
  | [], _, img => Except.ok img
  | p :: rest, radius, img =>
    match cv2_circle img p radius with
    | Except.error e => Except.error e
    | Except.ok img2 => splat_positions rest radius img2

/-- Model of `VideoHeatmapProcessor.generate_heatmap` (processor.py:111-142).
`gaussianBlur` abstracts `cv2.GaussianBlur(·, (blur_size, blur_size), 0)`.
The splat radius is `resolution // 4` (Python floor division). -/
def generate_heatmap (height width : ℕ) (cursor_positions : List (ℚ × ℤ × ℤ))
    (blur_size : ℤ) (gaussianBlur : HMap → ℤ → HMap)
    (start_time end_time : ℚ) (resolution : ℤ) : Except String HMap :=
  let heatmap : HMap := zeroHMap
  if cursor_positions = [] then Except.ok heatmap
  else
    let positions := positions_in_range cursor_positions start_time end_time width height
    match splat_positions positions (Int.fdiv resolution 4) heatmap with
    | Except.error e => Except.error e
    | Except.ok hm =>
      Except.ok (if positions = [] then hm else gaussianBlur hm blur_size)

/-- The in-bounds filter alone (no time test), used to state the
window-inclusivity comparison: the samples that survive when
`start_time = −∞, end_time = +∞`. -/
def in_bounds_positions (cursor_positions : List (ℚ × ℤ × ℤ))
    (width height : ℕ) : List (ℤ × ℤ) :=
  cursor_positions.filterMap fun s =>
    if 0 ≤ s.2.1 ∧ s.2.1 < (width : ℤ) ∧ 0 ≤ s.2.2 ∧ s.2.2 < (height : ℤ) then
      some (s.2.1, s.2.2)
    else none

/-- Variant of `generate_heatmap` with an unbounded time window, per the spec's
words: every timestamp passes the filter, only the in-bounds restriction
remains. -/
def generate_heatmap_unbounded (height width : ℕ)
    (cursor_positions : List (ℚ × ℤ × ℤ)) (blur_size : ℤ)
    (gaussianBlur : HMap → ℤ → HMap) (resolution : ℤ) : Except String HMap :=
  let heatmap : HMap := zeroHMap
  if cursor_positions = [] then Except.ok heatmap
  else
    let positions := in_bounds_positions cursor_positions width height
    match splat_positions positions (Int.fdiv resolution 4) heatmap with
    | Except.error e => Except.error e
    | Except.ok hm =>
      Except.ok (if positions = [] then hm else gaussianBlur hm blur_size)

/-- A 3-channel 8-bit frame: (row, column, channel) ↦ pixel value.
Values produced by the embedding are `< 256`. -/
def ColorFrame : Type := ℕ → ℕ → Fin 3 → ℕ

/-- The numpy `astype(np.uint8)` cast applied to a float: truncation
toward zero, then reduction into the 8-bit range (modular wrap; exact
for values already in `[0, 255]`, which is the case wherever the claims
apply). -/
def castUInt8 (q : ℚ) : ℕ := (truncQ q % 256).toNat

/-- Model of `cv2.cvtColor(·, cv2.COLOR_RGB2BGR)` on a single channel index:
swaps channels 0 and 2. -/
def rgb2bgr (c : Fin 3) : Fin 3 := ⟨2 - c.val, by omega⟩

/-- All values of a `height × width` density field, row-major. -/
def gridValues (hm : HMap) (height width : ℕ) : List ℚ :=
  (List.range height).flatMap fun i => (List.range width).map fun j => hm i j

/-- Model of `np.max` on a non-empty list of values. -/
def npMax (vals : List ℚ) : ℚ := vals.foldl max (vals.headD 0)

/-- Model of `VideoHeatmapProcessor.apply_heatmap_to_frame` (processor.py:144-164).
`cmap` abstracts the matplotlib colormap: normalized value ↦ RGB triple
in `[0,1]` per channel.  The normalization divides by `np.max(heatmap)`
when positive, else by 1; the per-pixel alpha is
`normalized * alpha_max`; each channel is blended as
`frame * (1 - alpha) + colored * alpha` and cast back to `uint8`. -/
def apply_heatmap_to_frame (frame : ColorFrame) (hm : HMap)
    (height width : ℕ) (cmap : ℚ → Fin 3 → ℚ) (alpha_max : ℚ) : ColorFrame :=
  let m := npMax (gridValues hm height width)
  let vmax : ℚ := if 0 < m then m else 1
  fun i j c =>
    let normalized := hm i j / vmax
    let colored_bgr : ℕ := castUInt8 (cmap normalized (rgb2bgr c) * 255)
    let alpha := normalized * alpha_max
    castUInt8 ((frame i j c : ℚ) * (1 - alpha) + (colored_bgr : ℚ) * alpha)

/-- An OpenCV contour, abstracted by the quantities the detector reads
off it: `cv2.contourArea` (always ≥ 0: OpenCV returns `fabs` of the
signed area), `cv2.arcLength` (a sum of segment lengths, always ≥ 0),
the `cv2.boundingRect` width/height, and the contour's pixel mask
(the region whose spatial moments `cv2.moments` computes; pixel
coordinates `(x, y)` are non-negative image indices). -/
structure Contour where
  area : ℚ
  perimeter : ℚ
  bboxW : ℕ
  bboxH : ℕ
  mask : List (ℕ × ℕ)
  area_nonneg : 0 ≤ area
  perimeter_nonneg : 0 ≤ perimeter

/-- The value `np.pi`, the IEEE-754 double closest to π, an exact rational. -/
def npPi : ℚ := 884279719003555 / 281474976710656

/-- Circularity `4 * np.pi * area / (perimeter * perimeter)`
(processor.py:85).  Total over `ℚ` (division by zero yields 0); the
source only evaluates it under the guard `perimeter > 0`. -/
def circularityOf (c : Contour) : ℚ :=
  4 * npPi * c.area / (c.perimeter * c.perimeter)

/-- Bounding-box aspect ratio `float(w) / h if h > 0 else 0`
(processor.py:90). -/
def aspectRatioOf (c : Contour) : ℚ :=
  if 0 < c.bboxH then (c.bboxW : ℚ) / (c.bboxH : ℚ) else 0

/-- The contour filter of `detect_cursor_from_difference`
(processor.py:78-93): keep `(c, area, circularity)` for the contours
whose area lies in `[min_area, max_area]`, whose perimeter is positive,
whose circularity exceeds `0.35`, and whose aspect ratio lies in
`[0.5, 2.0]`. -/
def valid_contours (contours : List Contour) (min_area max_area : ℚ) :
    List (Contour × ℚ × ℚ) :=
  contours.filterMap fun c =>
    if min_area ≤ c.area ∧ c.area ≤ max_area then
      if 0 < c.perimeter then
        if 7 / 20 < circularityOf c then
          if 1 / 2 ≤ aspectRatioOf c ∧ aspectRatioOf c ≤ 2 then
            some (c, c.area, circularityOf c)
          else none
        else none
      else none
    else none

/-- The combined score `area * circularity` used as the sort key
(processor.py:97). -/
def contourScore (e : Contour × ℚ × ℚ) : ℚ := e.2.1 * e.2.2

/-- Model of `valid_contours.sort(key=lambda x: x[1] * x[2], reverse=True)`
followed by taking element `[0]` (processor.py:95-100).  Python's sort
is stable, so the selected element is the first one attaining the
maximal score; modelled directly as a fold that replaces the candidate
only on a strictly greater score. -/
def selectBest : List (Contour × ℚ × ℚ) → Option (Contour × ℚ × ℚ)
  | [] => none
  | e :: rest =>
    some (rest.foldl (fun best x => if contourScore best < contourScore x then x else best) e)

/-- Zeroth spatial moment `M["m00"]` of a contour: the size of its mask. -/
def m00 (c : Contour) : ℚ := c.mask.length

/-- First spatial moment in x, `M["m10"]`: the sum of the mask's
x-coordinates. -/
def m10 (c : Contour) : ℚ := ((c.mask.map fun p => p.1).sum : ℕ)

/-- First spatial moment in y, `M["m01"]`: the sum of the mask's
y-coordinates. -/
def m01 (c : Contour) : ℚ := ((c.mask.map fun p => p.2).sum : ℕ)

/-- The contour-selection tail of `detect_cursor_from_difference`
(processor.py:95-109): pick the best surviving contour; return its
integer centroid `(int(m10/m00), int(m01/m00))` when `m00 != 0`, else
`(-1, -1)`; return `(-1, -1)` when no contour survives. -/
def detect_from_contours (contours : List Contour) (min_area max_area : ℚ) :
    ℤ × ℤ :=
  match selectBest (valid_contours contours min_area max_area) with
  | none => (-1, -1)
  | some e =>
    if m00 e.1 ≠ 0 then (truncQ (m10 e.1 / m00 e.1), truncQ (m01 e.1 / m00 e.1))
    else (-1, -1)

/-- Model of `VideoHeatmapProcessor.detect_cursor_from_difference`
(processor.py:47-109).  The image-processing front end — grayscale
conversion, Gaussian blur, `absdiff`, threshold at `threshold`,
morphological open/close, `cv2.findContours` — is abstracted as
`find_contours`, a function from the two frames and the threshold to
the list of external contours of the resulting mask; the claims bear on
the `None` guard and the contour filtering/selection, not on the mask
construction.  Returns `(-1, -1)` when either frame is `None`. -/
def detect_cursor_from_difference {F : Type}
    (find_contours : F → F → ℚ → List Contour)
    (frame prev_frame : Option F)
    (threshold min_area max_area : ℚ) : ℤ × ℤ :=
  match frame, prev_frame with
  | some f, some p => detect_from_contours (find_contours f p threshold) min_area max_area
  | _, _ => (-1, -1)

/-- The frame loop of `CursorDetectionThread.run` (ui.py:332-362),
parameterized by the per-pair detector (the bound call to
`detect_cursor_from_difference`), the source's `fps`, and the metadata
frame count `total_frames` used for the progress denominator.  State:
`prev_frame` and `frame_count`; remaining input: the list of frames the
successive `cap.read()` calls yield.  Returns the accumulated trail
(timestamp `frame_count / fps`, appended only when `x ≥ 0 ∧ y ≥ 0`)
and the list of progress values `int((frame_count / total_frames) * 100)`
emitted after each frame. -/
def runAux {F : Type} (detect : F → F → ℤ × ℤ) (fps : ℚ) (total_frames : ℕ) :
    Option F → ℕ → List F → List (ℚ × ℤ × ℤ) × List ℤ
  | _, _, [] => ([], [])
  | prev_frame, frame_count, f :: rest =>
    let timestamp := (frame_count : ℚ) / fps
    let xy : ℤ × ℤ :=
      match prev_frame with
      | some p => detect f p
      | none => (-1, -1)
    let next := runAux detect fps total_frames (some f) (frame_count + 1) rest
    let progress := truncQ (((frame_count : ℚ) + 1) / (total_frames : ℚ) * 100)
    if 0 ≤ xy.1 ∧ 0 ≤ xy.2 then
      ((timestamp, xy.1, xy.2) :: next.1, progress :: next.2)
    else
      (next.1, progress :: next.2)

/-- Model of `CursorDetectionThread.run` (ui.py:323-366): sets
`self.processor.cursor_positions = []` (discarding `old_positions`,
whatever trail the processor held before), then runs the frame loop
from `prev_frame = None`, `frame_count = 0`. -/
def thread_run {F : Type} (old_positions : List (ℚ × ℤ × ℤ))
    (detect : F → F → ℤ × ℤ) (fps : ℚ) (total_frames : ℕ)
    (frames : List F) : List (ℚ × ℤ × ℤ) × List ℤ :=
  runAux detect fps total_frames none 0 frames

/-- Model of `CursorDetectionThread.run` in the presence of a cancellation
request schedule (`cancel_requested i` = whether a cancellation has
been requested before iteration `i`).  The loop body (ui.py:332-362)
reads no cancellation flag — the thread class defines no stop flag and
never calls `isInterruptionRequested` — so the computation is the same
whatever the schedule says. -/
def thread_run_with_cancel {F : Type} (cancel_requested : ℕ → Bool)
    (old_positions : List (ℚ × ℤ × ℤ)) (detect : F → F → ℤ × ℤ)
    (fps : ℚ) (total_frames : ℕ) (frames : List F) :
    List (ℚ × ℤ × ℤ) × List ℤ :=
  thread_run old_positions detect fps total_frames frames

/-- A concrete contour used by the C4 witness: area 10, perimeter 12,
bounding box 4×4, mask of two pixels. -/
def testContour : Contour :=
  ⟨10, 12, 4, 4, [(2, 2), (3, 2)], by norm_num, by norm_num⟩

/-! ## Helper lemmas -/

theorem truncQ_nonneg {q : ℚ} (hq : 0 ≤ q) : 0 ≤ truncQ q :=
  Int.tdiv_nonneg (Rat.num_nonneg.mpr hq) (Int.natCast_nonneg _)

theorem truncQ_eq_floor {q : ℚ} (hq : 0 ≤ q) : truncQ q = ⌊q⌋ := by
  rw [truncQ, Rat.floor_def, Int.tdiv_eq_ediv (Rat.num_nonneg.mpr hq) (Int.natCast_nonneg _)]

theorem mem_positions_in_range {cursor_positions : List (ℚ × ℤ × ℤ)}
    {start_time end_time : ℚ} {width height : ℕ} {x y : ℤ} :
    (x, y) ∈ positions_in_range cursor_positions start_time end_time width height ↔
      ∃ t : ℚ, (t, x, y) ∈ cursor_positions ∧ start_time ≤ t ∧ t ≤ end_time ∧
        0 ≤ x ∧ x < (width : ℤ) ∧ 0 ≤ y ∧ y < (height : ℤ) := by
  simp only [positions_in_range, List.mem_filterMap]
  constructor
  · rintro ⟨⟨t, px, py⟩, hmem, hf⟩
    dsimp only at hf
    split at hf
    · split at hf
      · rename_i htime hbounds
        obtain ⟨hx, hy⟩ : px = x ∧ py = y := by
          simpa using hf
        subst hx; subst hy
        exact ⟨t, hmem, htime.1, htime.2, hbounds.1, hbounds.2.1, hbounds.2.2.1,
          hbounds.2.2.2⟩
      · exact absurd hf (by simp)
    · exact absurd hf (by simp)
  · rintro ⟨t, hmem, h1, h2, h3, h4, h5, h6⟩
    exact ⟨(t, x, y), hmem, by simp [h1, h2, h3, h4, h5, h6]⟩

theorem splat_positions_ok {positions : List (ℤ × ℤ)} {radius : ℤ}
    (hr : 0 ≤ radius) (img : HMap) :
    ∃ img2, splat_positions positions radius img = Except.ok img2 := by
  induction positions generalizing img with
  | nil => exact ⟨img, rfl⟩
  | cons p rest ih =>
    rw [splat_positions, cv2_circle, if_neg (by omega)]
    exact ih _

theorem castUInt8_lt (q : ℚ) : castUInt8 q < 256 := by
  have h1 : 0 ≤ truncQ q % 256 := Int.emod_nonneg _ (by norm_num)
  have h2 : truncQ q % 256 < 256 := Int.emod_lt_of_pos _ (by norm_num)
  rw [castUInt8]
  omega

theorem castUInt8_natCast {n : ℕ} (h : n < 256) : castUInt8 (n : ℚ) = n := by
  have h0 : truncQ (n : ℚ) = n := by
    rw [truncQ, Rat.num_natCast, Rat.den_natCast, Nat.cast_one, Int.tdiv_one]
  rw [castUInt8, h0]
  omega

/-! ## C1: compositing preserves zero-density regions and the display range -/

/-- C1: for every frame with 8-bit pixel values and every density field,
at each pixel where the density is zero the composited output equals the
input frame exactly (the per-pixel alpha is zero there); every output
value lies in the valid display range `[0, 256)`; and for an entirely
zero field the whole output frame equals the input frame. -/
theorem apply_heatmap_zero_density (frame : ColorFrame) (hm : HMap)
    (height width : ℕ) (cmap : ℚ → Fin 3 → ℚ) (alpha_max : ℚ)
    (hframe : ∀ i j c, frame i j c < 256) :
    ∀ i j c,
      (hm i j = 0 →
        apply_heatmap_to_frame frame hm height width cmap alpha_max i j c
          = frame i j c) ∧
      apply_heatmap_to_frame frame hm height width cmap alpha_max i j c < 256 ∧
      ((∀ a b, hm a b = 0) →
        apply_heatmap_to_frame frame hm height width cmap alpha_max i j c
          = frame i j c) := by
  intro i j c
  have hzero : hm i j = 0 →
      apply_heatmap_to_frame frame hm height width cmap alpha_max i j c
        = frame i j c := by
    intro hz
    simp only [apply_heatmap_to_frame, hz, zero_div, zero_mul, mul_zero, add_zero,
      sub_zero, mul_one]
    exact castUInt8_natCast (hframe i j c)
  exact ⟨hzero, castUInt8_lt _, fun hall => hzero (hall i j)⟩

/-- Witness for C1: a constant frame of value 10 and the all-zero field. -/
theorem apply_heatmap_zero_density_witness :
    (∀ i j c, (fun _ _ _ => 10 : ColorFrame) i j c < 256) ∧
    apply_heatmap_to_frame (fun _ _ _ => 10) zeroHMap 2 2 (fun _ _ => 1)
      (7 / 10) 0 0 0 = 10 ∧
    apply_heatmap_to_frame (fun _ _ _ => 10) zeroHMap 2 2 (fun _ _ => 1)
      (7 / 10) 0 0 0 < 256 :=
  ⟨fun _ _ _ => by norm_num,
    (apply_heatmap_zero_density (fun _ _ _ => 10) zeroHMap 2 2 (fun _ _ => 1)
      (7 / 10) (fun _ _ _ => by norm_num) 0 0 0).1 rfl,
    (apply_heatmap_zero_density (fun _ _ _ => 10) zeroHMap 2 2 (fun _ _ => 1)
      (7 / 10) (fun _ _ _ => by norm_num) 0 0 0).2.1⟩

/-! ## C9: `set_blur_size` always yields an odd value -/

/-- C9: for every integer `value`, the stored blur size
`set_blur_size value` is odd (its value mod 2 is 1); it equals `value`
when `value` is odd and `value + 1` when `value` is even — an even
input is auto-corrected by incrementing, never rejected. -/
theorem set_blur_size_oddness (value : ℤ) :
    set_blur_size value % 2 = 1 ∧
    (value % 2 = 1 → set_blur_size value = value) ∧
    (value % 2 = 0 → set_blur_size value = value + 1) := by
  unfold set_blur_size
  split
  · rename_i h
    exact ⟨h, fun _ => rfl, fun h0 => by omega⟩
  · rename_i h
    exact ⟨by omega, fun h1 => absurd h1 h, fun _ => rfl⟩

/-- Witness for C9 at the concrete inputs 4 (even) and 7 (odd). -/
theorem set_blur_size_oddness_witness :
    set_blur_size 4 % 2 = 1 ∧ set_blur_size 4 = 4 + 1 ∧
      set_blur_size 7 = 7 :=
  ⟨(set_blur_size_oddness 4).1, (set_blur_size_oddness 4).2.2 (by decide),
    (set_blur_size_oddness 7).2.1 (by decide)⟩

theorem selectBest_foldl_spec (l : List (Contour × ℚ × ℚ)) :
    ∀ e : Contour × ℚ × ℚ,
      l.foldl (fun best x => if contourScore best < contourScore x then x else best) e
          ∈ e :: l ∧
      contourScore e ≤ contourScore
        (l.foldl (fun best x => if contourScore best < contourScore x then x else best) e) ∧
      ∀ x ∈ l, contourScore x ≤ contourScore
        (l.foldl (fun best x => if contourScore best < contourScore x then x else best) e) := by
  induction l with
  | nil => exact fun e => ⟨List.mem_singleton.mpr rfl, le_refl _, by simp⟩
  | cons a l ih =>
    intro e
    rw [List.foldl_cons]
    obtain ⟨hmem, hge, hall⟩ :=
      ih (if contourScore e < contourScore a then a else e)
    have hkey : contourScore e ≤
          contourScore (if contourScore e < contourScore a then a else e) ∧
        contourScore a ≤
          contourScore (if contourScore e < contourScore a then a else e) := by
      split
      · rename_i hlt
        exact ⟨le_of_lt hlt, le_refl _⟩
      · rename_i hlt
        exact ⟨le_refl _, le_of_not_lt hlt⟩
    refine ⟨?_, le_trans hkey.1 hge, ?_⟩
    · rcases List.mem_cons.mp hmem with h | h
      · rw [h]
        split
        · exact List.mem_cons_of_mem _ (List.mem_cons_self _ _)
        · exact List.mem_cons_self _ _
      · exact List.mem_cons_of_mem _ (List.mem_cons_of_mem _ h)
    · intro x hx
      rcases List.mem_cons.mp hx with h | h
      · rw [h]
        exact le_trans hkey.2 hge
      · exact hall x h

theorem selectBest_spec {l : List (Contour × ℚ × ℚ)} {e : Contour × ℚ × ℚ}
    (h : selectBest l = some e) :
    e ∈ l ∧ ∀ x ∈ l, contourScore x ≤ contourScore e := by
  cases l with
  | nil => exact absurd h (by simp [selectBest])
  | cons a l =>
    rw [selectBest, Option.some_inj] at h
    obtain ⟨hmem, hge, hall⟩ := selectBest_foldl_spec l a
    rw [h] at hmem hge hall
    refine ⟨hmem, fun x hx => ?_⟩
    rcases List.mem_cons.mp hx with hx' | hx'
    · rw [hx']
      exact hge
    · exact hall x hx'

theorem mem_valid_contours {contours : List Contour} {min_area max_area : ℚ}
    {c : Contour} {a ci : ℚ} :
    (c, a, ci) ∈ valid_contours contours min_area max_area ↔
      c ∈ contours ∧ a = c.area ∧ ci = circularityOf c ∧
      (min_area ≤ c.area ∧ c.area ≤ max_area) ∧
      7 / 20 < circularityOf c ∧
      (1 / 2 ≤ aspectRatioOf c ∧ aspectRatioOf c ≤ 2) := by
  simp only [valid_contours, List.mem_filterMap]
  constructor
  · rintro ⟨c', hmem, hf⟩
    split at hf
    case isFalse => exact absurd hf (by simp)
    split at hf
    case isFalse => exact absurd hf (by simp)
    split at hf
    case isFalse => exact absurd hf (by simp)
    split at hf
    case isFalse => exact absurd hf (by simp)
    rename_i harea hperim hcirc har
    obtain ⟨hc, ha, hci⟩ : c' = c ∧ c'.area = a ∧ circularityOf c' = ci := by
      simpa using hf
    subst hc
    exact ⟨hmem, ha.symm, hci.symm, harea, hcirc, har⟩
  · rintro ⟨hmem, ha, hci, harea, hcirc, har⟩
    refine ⟨c, hmem, ?_⟩
    have hp : 0 < c.perimeter := by
      rcases lt_or_eq_of_le c.perimeter_nonneg with h | h
      · exact h
      · exfalso
        rw [circularityOf, ← h] at hcirc
        norm_num at hcirc
    rw [if_pos harea, if_pos hp, if_pos hcirc, if_pos har, ha, hci]

theorem detect_from_contours_none {contours : List Contour}
    {min_area max_area : ℚ}
    (h : selectBest (valid_contours contours min_area max_area) = none) :
    detect_from_contours contours min_area max_area = (-1, -1) := by
  rw [detect_from_contours, h]

theorem detect_from_contours_some {contours : List Contour}
    {min_area max_area : ℚ} {e : Contour × ℚ × ℚ}
    (h : selectBest (valid_contours contours min_area max_area) = some e) :
    detect_from_contours contours min_area max_area
      = if m00 e.1 ≠ 0 then
          (truncQ (m10 e.1 / m00 e.1), truncQ (m01 e.1 / m00 e.1))
        else (-1, -1) := by
  rw [detect_from_contours, h]

/-! ## C4: contour filtering and best-contour selection -/

/-- C4: a contour survives the filter of `detect_cursor_from_difference`
exactly when its area lies in `[min_area, max_area]`, its circularity
`4π·area/perimeter²` exceeds `0.35`, and its bounding-box aspect ratio
lies in `[0.5, 2.0]` (a zero perimeter makes the circularity condition
fail, matching the source's `perimeter > 0` guard); when some contour
survives, the selected one maximizes `area × circularity` among the
survivors, and its integer centroid is returned exactly when its zeroth
moment is nonzero, else no detection; when nothing survives, no
detection. -/
theorem contour_filter_and_selection (contours : List Contour)
    (min_area max_area : ℚ) :
    (∀ c a ci, (c, a, ci) ∈ valid_contours contours min_area max_area ↔
      c ∈ contours ∧ a = c.area ∧ ci = circularityOf c ∧
      (min_area ≤ c.area ∧ c.area ≤ max_area) ∧
      7 / 20 < circularityOf c ∧
      (1 / 2 ≤ aspectRatioOf c ∧ aspectRatioOf c ≤ 2)) ∧
    (∀ e, selectBest (valid_contours contours min_area max_area) = some e →
      e ∈ valid_contours contours min_area max_area ∧
      (∀ e' ∈ valid_contours contours min_area max_area,
        contourScore e' ≤ contourScore e) ∧
      (m00 e.1 ≠ 0 → detect_from_contours contours min_area max_area
        = (truncQ (m10 e.1 / m00 e.1), truncQ (m01 e.1 / m00 e.1))) ∧
      (m00 e.1 = 0 → detect_from_contours contours min_area max_area = (-1, -1))) ∧
    (selectBest (valid_contours contours min_area max_area) = none →
      detect_from_contours contours min_area max_area = (-1, -1)) := by
  refine ⟨fun c a ci => mem_valid_contours, fun e he => ?_, fun hnone => ?_⟩
  · obtain ⟨hmem, hmax⟩ := selectBest_spec he
    refine ⟨hmem, hmax, fun h0 => ?_, fun h0 => ?_⟩
    · rw [detect_from_contours_some he, if_pos h0]
    · rw [detect_from_contours_some he, if_neg (not_not_intro h0)]
  · exact detect_from_contours_none hnone

/-- Witness for C4: the test contour survives the filter, is selected,
has nonzero zeroth moment, and its centroid `(2, 2)` is returned. -/
theorem contour_filter_and_selection_witness :
    selectBest (valid_contours [testContour] 3 500)
      = some (testContour, testContour.area, circularityOf testContour) ∧
    m00 testContour ≠ 0 ∧
    detect_from_contours [testContour] 3 500 = (2, 2) := by
  have h1 : (3 : ℚ) ≤ testContour.area ∧ testContour.area ≤ 500 := by
    norm_num [testContour]
  have h2 : (0 : ℚ) < testContour.perimeter := by norm_num [testContour]
  have h3 : (7 : ℚ) / 20 < circularityOf testContour := by
    norm_num [circularityOf, testContour, npPi]
  have h4 : (1 : ℚ) / 2 ≤ aspectRatioOf testContour ∧
      aspectRatioOf testContour ≤ 2 := by
    norm_num [aspectRatioOf, testContour]
  have hvc : valid_contours [testContour] 3 500
      = [(testContour, testContour.area, circularityOf testContour)] := by
    rw [valid_contours, List.filterMap_cons, if_pos h1, if_pos h2, if_pos h3,
      if_pos h4, List.filterMap_nil]
  have hsel : selectBest (valid_contours [testContour] 3 500)
      = some (testContour, testContour.area, circularityOf testContour) := by
    rw [hvc]
    rfl
  have hm00 : m00 testContour ≠ 0 := by norm_num [m00, testContour]
  have e10 : m10 testContour = 5 := by norm_num [m10, testContour]
  have e01 : m01 testContour = 4 := by norm_num [m01, testContour]
  have e00 : m00 testContour = 2 := by norm_num [m00, testContour]
  have h := ((contour_filter_and_selection [testContour] 3 500).2.1
    (testContour, testContour.area, circularityOf testContour) hsel).2.2.1 hm00
  refine ⟨hsel, hm00, ?_⟩
  rw [h]
  have t10 : truncQ (m10 (testContour, testContour.area,
      circularityOf testContour).1 / m00 (testContour, testContour.area,
      circularityOf testContour).1) = 2 := by
    show truncQ (m10 testContour / m00 testContour) = 2
    rw [e10, e00, truncQ_eq_floor (by norm_num), Int.floor_eq_iff]
    norm_num
  have t01 : truncQ (m01 (testContour, testContour.area,
      circularityOf testContour).1 / m00 (testContour, testContour.area,
      circularityOf testContour).1) = 2 := by
    show truncQ (m01 testContour / m00 testContour) = 2
    rw [e01, e00, truncQ_eq_floor (by norm_num), Int.floor_eq_iff]
    norm_num
  rw [t10, t01]

/-! ## C10: the detector returns a non-negative centroid or the sentinel -/

/-- C10: `detect_cursor_from_difference` returns `(-1, -1)` whenever
either frame argument is `None`, and in every case returns either the
sentinel `(-1, -1)` or a pair with both components non-negative, so the
caller's test `x ≥ 0 and y ≥ 0` is unambiguous. -/
theorem detect_sentinel_or_nonneg {F : Type}
    (find_contours : F → F → ℚ → List Contour)
    (frame prev_frame : Option F) (threshold min_area max_area : ℚ) :
    ((frame = none ∨ prev_frame = none) →
      detect_cursor_from_difference find_contours frame prev_frame threshold
        min_area max_area = (-1, -1)) ∧
    (detect_cursor_from_difference find_contours frame prev_frame threshold
        min_area max_area = (-1, -1) ∨
      (0 ≤ (detect_cursor_from_difference find_contours frame prev_frame threshold
          min_area max_area).1 ∧
       0 ≤ (detect_cursor_from_difference find_contours frame prev_frame threshold
          min_area max_area).2)) := by
  cases frame with
  | none => exact ⟨fun _ => rfl, Or.inl rfl⟩
  | some f =>
    cases prev_frame with
    | none => exact ⟨fun _ => rfl, Or.inl rfl⟩
    | some p =>
      have hred : detect_cursor_from_difference find_contours (some f) (some p)
          threshold min_area max_area
          = detect_from_contours (find_contours f p threshold) min_area max_area :=
        rfl
      rw [hred]
      refine ⟨fun h => ?_, ?_⟩
      · rcases h with h | h <;> exact absurd h (by simp)
      · cases hsel : selectBest (valid_contours (find_contours f p threshold)
            min_area max_area) with
        | none => exact Or.inl (detect_from_contours_none hsel)
        | some e =>
          by_cases h0 : m00 e.1 ≠ 0
          · right
            have hres : detect_from_contours (find_contours f p threshold)
                min_area max_area
                = (truncQ (m10 e.1 / m00 e.1), truncQ (m01 e.1 / m00 e.1)) := by
              rw [detect_from_contours_some hsel, if_pos h0]
            have hm00 : (0 : ℚ) ≤ m00 e.1 := by
              rw [m00]
              positivity
            have h10 : (0 : ℚ) ≤ m10 e.1 := by
              rw [m10]
              positivity
            have h01 : (0 : ℚ) ≤ m01 e.1 := by
              rw [m01]
              positivity
            rw [hres]
            exact ⟨truncQ_nonneg (div_nonneg h10 hm00),
              truncQ_nonneg (div_nonneg h01 hm00)⟩
          · left
            rw [detect_from_contours_some hsel, if_neg h0]

/-- Witness for C10: an absent previous frame yields the sentinel. -/
theorem detect_sentinel_or_nonneg_witness :
    detect_cursor_from_difference (fun _ _ _ => ([] : List Contour))
      (some (0 : ℕ)) none 15 3 500 = (-1, -1) :=
  (detect_sentinel_or_nonneg (fun _ _ _ => ([] : List Contour))
    (some (0 : ℕ)) none 15 3 500).1 (Or.inr rfl)

theorem runAux_mem {F : Type} (detect : F → F → ℤ × ℤ) (fps : ℚ) (total : ℕ) :
    ∀ (frames : List F) (prev : Option F) (fc : ℕ) (s : ℚ × ℤ × ℤ),
      s ∈ (runAux detect fps total prev fc frames).1 →
      ∃ k, ∃ hk : k < frames.length,
        s.1 = ((fc + k : ℕ) : ℚ) / fps ∧ 0 ≤ s.2.1 ∧ 0 ≤ s.2.2 ∧
        ((0 < k ∧ ∃ hk1 : k - 1 < frames.length,
            detect (frames.get ⟨k, hk⟩) (frames.get ⟨k - 1, hk1⟩) = s.2) ∨
         (k = 0 ∧ ∃ p, prev = some p ∧ detect (frames.get ⟨k, hk⟩) p = s.2)) := by
  intro frames
  induction frames with
  | nil =>
    intro prev fc s hs
    simp [runAux] at hs
  | cons f rest ih =>
    intro prev fc s hs
    have hlift : s ∈ (runAux detect fps total (some f) (fc + 1) rest).1 →
        ∃ k, ∃ hk : k < (f :: rest).length,
          s.1 = ((fc + k : ℕ) : ℚ) / fps ∧ 0 ≤ s.2.1 ∧ 0 ≤ s.2.2 ∧
          ((0 < k ∧ ∃ hk1 : k - 1 < (f :: rest).length,
              detect ((f :: rest).get ⟨k, hk⟩) ((f :: rest).get ⟨k - 1, hk1⟩)
                = s.2) ∨
           (k = 0 ∧ ∃ p, prev = some p ∧
              detect ((f :: rest).get ⟨k, hk⟩) p = s.2)) := by
      intro hs'
      obtain ⟨k', hk', hts, hx, hy, hdet⟩ := ih (some f) (fc + 1) s hs'
      have hcast : (fc + 1) + k' = fc + (k' + 1) := by omega
      rw [hcast] at hts
      refine ⟨k' + 1, by simpa using Nat.succ_lt_succ hk', hts, hx, hy, Or.inl ?_⟩
      rcases hdet with ⟨hk'pos, hk1', hd⟩ | ⟨hk'0, p, hp, hd⟩
      · obtain ⟨k'', rfl⟩ : ∃ k'', k' = k'' + 1 := ⟨k' - 1, by omega⟩
        refine ⟨by omega, ⟨?_, ?_⟩⟩
        · simp only [List.length_cons]
          omega
        · exact hd
      · subst hk'0
        obtain rfl : f = p := by injection hp
        refine ⟨by omega, ⟨?_, ?_⟩⟩
        · simp only [List.length_cons]
          omega
        · exact hd
    simp only [runAux] at hs
    split at hs
    · rename_i hcond
      rcases List.mem_cons.mp hs with heq | hs'
      · cases prev with
        | none => exact absurd hcond (by norm_num)
        | some p =>
          subst heq
          refine ⟨0, Nat.succ_pos _, ?_, ?_, ?_, Or.inr ⟨rfl, p, rfl, ?_⟩⟩
          · norm_num
          · exact hcond.1
          · exact hcond.2
          · rfl
      · exact hlift hs'
    · exact hlift hs

theorem runAux_pairwise {F : Type} (detect : F → F → ℤ × ℤ) (fps : ℚ)
    (total : ℕ) (hfps : 0 < fps) :
    ∀ (frames : List F) (prev : Option F) (fc : ℕ),
      List.Pairwise (fun a b : ℚ × ℤ × ℤ => a.1 ≤ b.1)
        (runAux detect fps total prev fc frames).1 := by
  intro frames
  induction frames with
  | nil =>
    intro prev fc
    simp [runAux]
  | cons f rest ih =>
    intro prev fc
    simp only [runAux]
    split
    · rw [List.pairwise_cons]
      refine ⟨?_, ih (some f) (fc + 1)⟩
      intro s hs
      obtain ⟨k, hk, hts, -⟩ := runAux_mem detect fps total rest (some f) (fc + 1) s hs
      show (fc : ℚ) / fps ≤ s.1
      rw [hts]
      rw [div_le_div_iff_of_pos_right hfps]
      push_cast
      linarith
    · exact ih (some f) (fc + 1)

theorem runAux_progress {F : Type} (detect : F → F → ℤ × ℤ) (fps : ℚ)
    (total : ℕ) (htotal : 0 < total) :
    ∀ (frames : List F) (prev : Option F) (fc : ℕ),
      fc + frames.length ≤ total →
      ∀ p ∈ (runAux detect fps total prev fc frames).2, 0 ≤ p ∧ p ≤ 100 := by
  intro frames
  induction frames with
  | nil =>
    intro prev fc hlen p hp
    simp [runAux] at hp
  | cons f rest ih =>
    intro prev fc hlen p hp
    simp only [runAux] at hp
    have hp' : p = truncQ (((fc : ℚ) + 1) / (total : ℚ) * 100) ∨
        p ∈ (runAux detect fps total (some f) (fc + 1) rest).2 := by
      split at hp <;> simpa using hp
    have hlen' : fc + 1 + rest.length ≤ total := by
      have := hlen
      simp only [List.length_cons] at this
      omega
    rcases hp' with rfl | hp'
    · have hq0 : (0 : ℚ) ≤ ((fc : ℚ) + 1) / (total : ℚ) * 100 := by positivity
      refine ⟨truncQ_nonneg hq0, ?_⟩
      rw [truncQ_eq_floor hq0]
      have h1 : ((fc : ℚ) + 1) ≤ (total : ℚ) := by
        have h1' : fc + 1 ≤ total := by omega
        exact_mod_cast h1'
      have h2 : ((fc : ℚ) + 1) / (total : ℚ) ≤ 1 := by
        rw [div_le_one (by exact_mod_cast htotal)]
        exact h1
      have hle : ((fc : ℚ) + 1) / (total : ℚ) * 100 ≤ 100 := by linarith
      calc ⌊((fc : ℚ) + 1) / (total : ℚ) * 100⌋ ≤ ⌊(100 : ℚ)⌋ :=
            Int.floor_le_floor hle
        _ = 100 := by norm_num
    · exact ih (some f) (fc + 1) hlen' p hp'

/-! ## C5: detection-pass timestamps -/

/-- C5: a detection pass rebuilds the trail from scratch (its result is
independent of the trail the processor held before), every trail sample
carries timestamp `frame_index / fps` for the frame it was detected on
(the detector was called on that frame and its predecessor and returned
the sample's non-negative coordinates), and the sequence of timestamps
is monotonically non-decreasing. -/
theorem detection_pass_timestamps {F : Type} (old_positions : List (ℚ × ℤ × ℤ))
    (detect : F → F → ℤ × ℤ) (fps : ℚ) (total_frames : ℕ) (frames : List F)
    (hfps : 0 < fps) :
    thread_run old_positions detect fps total_frames frames
      = thread_run [] detect fps total_frames frames ∧
    List.Pairwise (fun a b : ℚ × ℤ × ℤ => a.1 ≤ b.1)
      (thread_run old_positions detect fps total_frames frames).1 ∧
    (∀ s ∈ (thread_run old_positions detect fps total_frames frames).1,
      ∃ i, ∃ hi : i < frames.length, ∃ hi1 : i - 1 < frames.length,
        0 < i ∧ s.1 = (i : ℚ) / fps ∧
        detect (frames.get ⟨i, hi⟩) (frames.get ⟨i - 1, hi1⟩) = s.2 ∧
        0 ≤ s.2.1 ∧ 0 ≤ s.2.2) := by
  refine ⟨rfl, runAux_pairwise detect fps total_frames hfps frames none 0, ?_⟩
  intro s hs
  obtain ⟨k, hk, hts, hx, hy, hdet⟩ :=
    runAux_mem detect fps total_frames frames none 0 s hs
  rcases hdet with ⟨hkpos, hk1, hd⟩ | ⟨-, p, hp, -⟩
  · refine ⟨k, hk, hk1, hkpos, ?_, hd, hx, hy⟩
    rw [hts]
    norm_num
  · exact absurd hp (by simp)

/-- Witness for C5: a three-frame pass with a constant detector and a
non-empty prior trail, at `fps = 30`. -/
theorem detection_pass_timestamps_witness :
    (0 : ℚ) < 30 ∧
    List.Pairwise (fun a b : ℚ × ℤ × ℤ => a.1 ≤ b.1)
      (thread_run [((9 : ℚ), (9 : ℤ), (9 : ℤ))]
        (fun _ _ : ℕ => ((1 : ℤ), (1 : ℤ))) 30 3 [0, 1, 2]).1 :=
  ⟨by norm_num,
    (detection_pass_timestamps [((9 : ℚ), (9 : ℤ), (9 : ℤ))]
      (fun _ _ : ℕ => ((1 : ℤ), (1 : ℤ))) 30 3 [0, 1, 2] (by norm_num)).2.1⟩

/-! ## C6: cancellation -/

/-- Counterexample to C6 as stated: with a cancellation request pending
before every iteration (`fun _ => true`), a two-frame pass with a
constant detector still produces a non-empty trail — the loop never
checks any cancellation signal, so a cancelled pass does **not** yield
an empty trail. -/
theorem cancelled_pass_retains_trail :
    (thread_run_with_cancel (fun _ => true) []
        (fun _ _ : ℕ => ((1 : ℤ), (1 : ℤ))) 1 2 [0, 1]).1 = [(1, 1, 1)] ∧
    (thread_run_with_cancel (fun _ => true) []
        (fun _ _ : ℕ => ((1 : ℤ), (1 : ℤ))) 1 2 [0, 1]).1 ≠ [] := by
  have h : (thread_run_with_cancel (fun _ => true) []
      (fun _ _ : ℕ => ((1 : ℤ), (1 : ℤ))) 1 2 [0, 1]).1 = [(1, 1, 1)] := by
    norm_num [thread_run_with_cancel, thread_run, runAux]
  exact ⟨h, by rw [h]; simp⟩

/-- C6 (amended): the detection pass checks no cancellation signal; its
result — trail and progress alike — is identical under every
cancellation-request schedule and equals that of the uncancelled pass,
so cancelling does not discard (nor stop accumulating) the trail. -/
theorem detection_pass_ignores_cancellation {F : Type}
    (cancel cancel' : ℕ → Bool) (old_positions : List (ℚ × ℤ × ℤ))
    (detect : F → F → ℤ × ℤ) (fps : ℚ) (total_frames : ℕ) (frames : List F) :
    thread_run_with_cancel cancel old_positions detect fps total_frames frames
      = thread_run_with_cancel cancel' old_positions detect fps total_frames
          frames ∧
    thread_run_with_cancel cancel old_positions detect fps total_frames frames
      = thread_run old_positions detect fps total_frames frames :=
  ⟨rfl, rfl⟩

/-! ## C7: progress reporting -/

/-- Counterexample to C7 as stated: the progress emitted after the only
frame of a one-frame pass is the integer percentage `100`, not a
fractional value in `[0, 1]`. -/
theorem progress_percent_counterexample :
    (thread_run [] (fun _ _ : ℕ => ((-1 : ℤ), (-1 : ℤ))) 30 1 [0]).2 = [100] ∧
    ¬ ((100 : ℤ) ≤ 1) := by
  have h : (thread_run [] (fun _ _ : ℕ => ((-1 : ℤ), (-1 : ℤ))) 30 1 [0]).2
      = [truncQ (((0 : ℚ) + 1) / ((1 : ℕ) : ℚ) * 100)] := by
    norm_num [thread_run, runAux]
  have h100 : truncQ (((0 : ℚ) + 1) / ((1 : ℕ) : ℚ) * 100) = 100 := by
    rw [show ((0 : ℚ) + 1) / ((1 : ℕ) : ℚ) * 100 = 100 by norm_num,
      truncQ_eq_floor (by norm_num)]
    norm_num
  rw [h, h100]
  exact ⟨rfl, by norm_num⟩

/-- C7 (amended): progress is emitted after each frame as an integer
percentage `int((frames_processed / total_frames) * 100)`; whenever the
metadata frame count is positive and at least the number of frames
actually read, every emitted value lies in `[0, 100]`. -/
theorem progress_values_percent {F : Type} (old_positions : List (ℚ × ℤ × ℤ))
    (detect : F → F → ℤ × ℤ) (fps : ℚ) (total_frames : ℕ) (frames : List F)
    (h1 : 0 < total_frames) (h2 : frames.length ≤ total_frames) :
    ∀ p ∈ (thread_run old_positions detect fps total_frames frames).2,
      0 ≤ p ∧ p ≤ 100 :=
  runAux_progress detect fps total_frames h1 frames none 0 (by omega)

/-- Witness for C7 (amended): a two-frame pass over a two-frame source. -/
theorem progress_values_percent_witness :
    0 < 2 ∧ [(0 : ℕ), 1].length ≤ 2 ∧
    ∀ p ∈ (thread_run [] (fun _ _ : ℕ => ((1 : ℤ), (1 : ℤ))) 30 2 [0, 1]).2,
      0 ≤ p ∧ p ≤ 100 :=
  ⟨by norm_num, by norm_num,
    progress_values_percent [] (fun _ _ : ℕ => ((1 : ℤ), (1 : ℤ))) 30 2 [0, 1]
      (by norm_num) (by norm_num)⟩

/-! ## C3: a window containing no samples yields the all-zero field -/

/-- C3: whenever no trail sample's timestamp falls in
`[start_time, end_time]` — in particular for an empty trail, or for an
inverted window with `start_time > end_time` — `generate_heatmap`
returns the all-zero field without an error, and does so for **every**
Gaussian-blur function (the smoothing pass is skipped, so the result
does not depend on it) and every radius/blur parameter. -/
theorem generate_heatmap_empty_window
    (height width : ℕ) (cursor_positions : List (ℚ × ℤ × ℤ)) (blur_size : ℤ)
    (gaussianBlur : HMap → ℤ → HMap) (start_time end_time : ℚ) (resolution : ℤ)
    (h : ∀ p ∈ cursor_positions, p.1 < start_time ∨ end_time < p.1) :
    generate_heatmap height width cursor_positions blur_size gaussianBlur
      start_time end_time resolution = Except.ok zeroHMap := by
  have hpir : positions_in_range cursor_positions start_time end_time width height
      = [] := by
    rw [positions_in_range, List.filterMap_eq_nil_iff]
    intro p hp
    rw [if_neg]
    rintro ⟨h1, h2⟩
    rcases h p hp with h' | h' <;> linarith
  by_cases hcp : cursor_positions = [] <;>
    simp only [generate_heatmap, hcp, if_pos, if_neg, hpir, splat_positions,
      if_true, if_false, reduceIte]

/-- Witness for C3: a one-sample trail and the inverted window
`[3, 2]` (start &gt; end). -/
theorem generate_heatmap_empty_window_witness :
    (∀ p ∈ [((5 : ℚ), (1 : ℤ), (1 : ℤ))], p.1 < 3 ∨ (2 : ℚ) < p.1) ∧
    generate_heatmap 4 4 [(5, 1, 1)] 15 (fun hm _ => hm) 3 2 100
      = Except.ok zeroHMap :=
  ⟨by decide,
    generate_heatmap_empty_window 4 4 [(5, 1, 1)] 15 (fun hm _ => hm) 3 2 100
      (by decide)⟩

/-! ## C2: inclusive window filtering -/

/-- C2: `generate_heatmap` includes exactly the trail samples with
`start_time ≤ t ≤ end_time` (inclusive at both boundaries) and
in-bounds coordinates `0 ≤ x < width`, `0 ≤ y < height`; and when the
window contains every trail timestamp, the generated field coincides
with the one built over an unbounded window restricted to in-bounds
samples. -/
theorem generate_heatmap_window_inclusive
    (height width : ℕ) (cursor_positions : List (ℚ × ℤ × ℤ)) (blur_size : ℤ)
    (gaussianBlur : HMap → ℤ → HMap) (start_time end_time : ℚ) (resolution : ℤ) :
    (∀ x y : ℤ,
      (x, y) ∈ positions_in_range cursor_positions start_time end_time width height ↔
        ∃ t : ℚ, (t, x, y) ∈ cursor_positions ∧ start_time ≤ t ∧ t ≤ end_time ∧
          0 ≤ x ∧ x < (width : ℤ) ∧ 0 ≤ y ∧ y < (height : ℤ)) ∧
    ((∀ p ∈ cursor_positions, start_time ≤ p.1 ∧ p.1 ≤ end_time) →
      generate_heatmap height width cursor_positions blur_size gaussianBlur
          start_time end_time resolution
        = generate_heatmap_unbounded height width cursor_positions blur_size
            gaussianBlur resolution) := by
  constructor
  · intro x y
    exact mem_positions_in_range
  · intro hall
    have hpos : positions_in_range cursor_positions start_time end_time width height
        = in_bounds_positions cursor_positions width height := by
      rw [positions_in_range, in_bounds_positions]
      exact List.filterMap_congr fun p hp => by rw [if_pos (hall p hp)]
    simp only [generate_heatmap, generate_heatmap_unbounded, hpos]

/-- Witness for C2: a two-sample trail, one sample exactly at each
window boundary (both are kept), inside a `[0, 10]` window that covers
all timestamps. -/
theorem generate_heatmap_window_inclusive_witness :
    (∀ p ∈ [((0 : ℚ), (1 : ℤ), (1 : ℤ)), ((10 : ℚ), (2 : ℤ), (2 : ℤ))],
      (0 : ℚ) ≤ p.1 ∧ p.1 ≤ 10) ∧
    generate_heatmap 4 4 [(0, 1, 1), (10, 2, 2)] 15 (fun hm _ => hm) 0 10 100
      = generate_heatmap_unbounded 4 4 [(0, 1, 1), (10, 2, 2)] 15
          (fun hm _ => hm) 100 :=
  ⟨by decide,
    (generate_heatmap_window_inclusive 4 4 [(0, 1, 1), (10, 2, 2)] 15
      (fun hm _ => hm) 0 10 100).2 (by decide)⟩

/-! ## C8: degenerate splat radii -/

/-- Counterexample to C8 as stated: at `resolution = -4` the derived
radius `resolution // 4 = -1` is negative and the `cv2.circle` radius
assertion fails, so `generate_heatmap` raises an error rather than
falling back to a minimum radius of 1. -/
theorem generate_heatmap_negative_resolution_error :
    generate_heatmap 4 4 [(1, 1, 1)] 15 (fun hm _ => hm) 0 10 (-4)
      = Except.error "cv2.circle: radius must be non-negative" := by
  rfl

/-- C8 (amended): for every non-negative `resolution` the builder does
not crash: the derived radius `resolution // 4` is non-negative (a zero
radius splats only the center pixel; it is not clamped to 1) and every
`cv2.circle` call succeeds. -/
theorem generate_heatmap_nonneg_resolution_ok
    (height width : ℕ) (cursor_positions : List (ℚ × ℤ × ℤ)) (blur_size : ℤ)
    (gaussianBlur : HMap → ℤ → HMap) (start_time end_time : ℚ) (resolution : ℤ)
    (hres : 0 ≤ resolution) :
    ∃ hm, generate_heatmap height width cursor_positions blur_size gaussianBlur
      start_time end_time resolution = Except.ok hm := by
  have hr : 0 ≤ Int.fdiv resolution 4 := Int.fdiv_nonneg hres (by omega)
  by_cases hcp : cursor_positions = []
  · exact ⟨zeroHMap, by simp only [generate_heatmap, hcp, if_pos, reduceIte]⟩
  · obtain ⟨img2, himg2⟩ := @splat_positions_ok
      (positions_in_range cursor_positions start_time end_time width height)
      (Int.fdiv resolution 4) hr zeroHMap
    refine ⟨if positions_in_range cursor_positions start_time end_time width height
        = [] then img2 else gaussianBlur img2 blur_size, ?_⟩
    simp only [generate_heatmap, hcp, if_neg, if_false, reduceIte, himg2]

/-- Witness for C8 (amended) at `resolution = 2` (derived radius 0). -/
theorem generate_heatmap_nonneg_resolution_ok_witness :
    (0 : ℤ) ≤ 2 ∧
    ∃ hm, generate_heatmap 4 4 [(1, 1, 1)] 15 (fun hm _ => hm) 0 10 2
      = Except.ok hm :=
  ⟨by decide,
    generate_heatmap_nonneg_resolution_ok 4 4 [(1, 1, 1)] 15 (fun hm _ => hm)
      0 10 2 (by decide)⟩
